import Mathlib

set_option maxRecDepth 8192

/-!
Verification of the RAG chat client core against its natural-language
specification.  The definitions below are shallow embeddings of the
TypeScript source: text is modelled as `List Char` (JS strings indexed by
code units), machine numbers as `Nat`/`Int`/`ℚ`, fallible calls as
`Except`/`Option`, and the external providers (embedding, generation,
vector distance) as explicit function parameters.
-/

namespace RagChat

/-! ## Chunker (src/services/fileService.ts, chunkText) -/

/-- Characters per chunk window (fileService.ts CHUNK_SIZE). -/
def CHUNK_SIZE : Nat := 500

/-- Overlap between consecutive windows (fileService.ts OVERLAP). -/
def OVERLAP : Nat := 50

/-- One element of the pages array produced by parsePdf: extracted text and
its 1-based page number. -/
structure PageText where
  text : List Char
  page : Nat
deriving DecidableEq

/-- A chunk before id and embedding are attached
(fileService.ts, the element type pushed by chunkText). -/
structure RawChunk where
  text : List Char
  sourceFileName : String
  pageNumber : Nat
deriving DecidableEq

/-- The sliding-window loop of chunkText:
for (let i = 0; i < text.length; i += (CHUNK_SIZE - OVERLAP)).
The extra fuel argument is a structural bound on the remaining loop
iterations; `chunkPage` supplies `text.length`, which always suffices
because the step CHUNK_SIZE - OVERLAP = 450 is at least 1. -/
def chunkPageGo (text : List Char) (fileName : String) (page : Nat) :
    Nat → Nat → List RawChunk
  | 0, _ => []
  | fuel + 1, i =>
    if i < text.length then
      (if 50 < ((text.drop i).take CHUNK_SIZE).length then
        [⟨(text.drop i).take CHUNK_SIZE, fileName, page⟩]
      else []) ++ chunkPageGo text fileName page fuel (i + (CHUNK_SIZE - OVERLAP))
    else []

/-- The per-page body of chunkText (fileService.ts lines 76-88). -/
def chunkPage (text : List Char) (fileName : String) (page : Nat) : List RawChunk :=
  chunkPageGo text fileName page text.length 0

/-- chunkText (fileService.ts lines 73-92): sliding-window chunking over
every page. -/
def chunkText (pages : List PageText) (fileName : String) : List RawChunk :=
  (pages.map fun p => chunkPage p.text fileName p.page).flatten

/-- Modelled from the spec: the trimmed length of a window, as in the spec
sentence "emit a chunk for every window whose trimmed length exceeds 50
characters".  JS String.trim removes whitespace from both ends.  The source
code itself never trims (it tests the raw window length), which is what the
counterexample for C5 exhibits. -/
def trimChars (s : List Char) : List Char :=
  ((s.dropWhile Char.isWhitespace).reverse.dropWhile Char.isWhitespace).reverse

/-- Unfolding lemma for the loop body with the numeric constants evaluated. -/
theorem chunkPageGo_succ (text : List Char) (f : String) (p fuel i : Nat) :
    chunkPageGo text f p (fuel + 1) i =
      if i < text.length then
        (if 50 < ((text.drop i).take 500).length then
          [⟨(text.drop i).take 500, f, p⟩]
        else []) ++ chunkPageGo text f p fuel (i + 450)
      else [] := by
  simp [chunkPageGo, CHUNK_SIZE, OVERLAP]

/-- Membership in the chunking loop, characterized by window offsets:
provided the fuel covers the remaining iterations, the loop starting at
offset i emits exactly the windows at offsets i, i+450, i+900, ... that lie
inside the text and whose raw length exceeds 50. -/
theorem mem_chunkPageGo (text : List Char) (f : String) (p : Nat) :
    ∀ fuel i, text.length ≤ i + 450 * fuel →
      ∀ c : RawChunk, c ∈ chunkPageGo text f p fuel i ↔
        ∃ k, i + 450 * k < text.length ∧
          50 < ((text.drop (i + 450 * k)).take 500).length ∧
          c = ⟨(text.drop (i + 450 * k)).take 500, f, p⟩ := by
  intro fuel
  induction fuel with
  | zero =>
    intro i h c
    simp only [chunkPageGo, List.not_mem_nil, false_iff]
    rintro ⟨k, hk, -, -⟩
    omega
  | succ fuel ih =>
    intro i h c
    rw [chunkPageGo_succ]
    by_cases hi : i < text.length
    · have hfuel : text.length ≤ (i + 450) + 450 * fuel := by
        have : 450 * (fuel + 1) = 450 * fuel + 450 := by ring
        omega
      have hidx : ∀ k : Nat, i + 450 + 450 * k = i + 450 * (k + 1) := by
        intro k; ring
      rw [if_pos hi]
      simp only [List.mem_append]
      constructor
      · rintro (hc | hc)
        · by_cases hw : 50 < ((text.drop i).take 500).length

          · rw [if_pos hw] at hc
            simp only [List.mem_singleton] at hc
            refine ⟨0, by simpa using hi, by simpa using hw, by simpa using hc⟩
          · rw [if_neg hw] at hc
            simp at hc
        · obtain ⟨k, h1, h2, h3⟩ := (ih (i + 450) hfuel c).mp hc
          rw [hidx k] at h1 h2 h3
          exact ⟨k + 1, h1, h2, h3⟩
      · rintro ⟨k, h1, h2, h3⟩
        cases k with
        | zero =>
          left
          simp only [Nat.mul_zero, Nat.add_zero] at h1 h2 h3
          rw [if_pos h2]
          simp [h3]
        | succ k =>
          right
          refine (ih (i + 450) hfuel c).mpr ⟨k, ?_, ?_, ?_⟩ <;>
            rw [hidx k] <;> assumption
    · rw [if_neg hi]
      simp only [List.not_mem_nil, false_iff]
      rintro ⟨k, hk, -, -⟩
      omega

/-- Fuel equal to the text length always suffices for the loop. -/
theorem mem_chunkPage (text : List Char) (f : String) (p : Nat) (c : RawChunk) :
    c ∈ chunkPage text f p ↔
      ∃ k, 450 * k < text.length ∧
        50 < ((text.drop (450 * k)).take 500).length ∧
        c = ⟨(text.drop (450 * k)).take 500, f, p⟩ := by
  have h := mem_chunkPageGo text f p text.length 0 (by nlinarith [text.length.zero_le]) c
  simpa [chunkPage] using h

/-- Claim C5 (amended): for every input list of pages and file label, the
chunker slides a 500-character window advancing 450 characters per step over
each page, and emits a chunk for a window if and only if the RAW window
(untrimmed) character count exceeds 50; each emitted chunk carries the file
label and the number of the page.  (The original claim required the TRIMMED
length to exceed 50; the code tests the raw window length, see the
counterexample.) -/
theorem c5_chunker_window_contract (pages : List PageText) (fileName : String)
    (c : RawChunk) :
    c ∈ chunkText pages fileName ↔
      ∃ pg ∈ pages, ∃ k, 450 * k < pg.text.length ∧
        c.text = (pg.text.drop (450 * k)).take 500 ∧
        50 < c.text.length ∧
        c.sourceFileName = fileName ∧ c.pageNumber = pg.page := by
  simp only [chunkText, List.mem_flatten, List.mem_map]
  constructor
  · rintro ⟨l, ⟨pg, hpg, rfl⟩, hc⟩
    obtain ⟨k, h1, h2, rfl⟩ := (mem_chunkPage pg.text fileName pg.page c).mp hc
    exact ⟨pg, hpg, k, h1, rfl, h2, rfl, rfl⟩
  · rintro ⟨pg, hpg, k, h1, htext, hlen, hfn, hpn⟩
    refine ⟨chunkPage pg.text fileName pg.page, ⟨pg, hpg, rfl⟩, ?_⟩
    refine (mem_chunkPage pg.text fileName pg.page c).mpr ⟨k, h1, ?_, ?_⟩
    · rw [← htext]; exact hlen
    · obtain ⟨ct, cf, cp⟩ := c
      dsimp only at htext hfn hpn
      rw [htext, hfn, hpn]

/-- Claim C5 witness: a concrete 60-character page yields its single window
as a chunk, via the contract theorem. -/
theorem c5_chunker_window_contract_witness :
    (⟨List.replicate 60 'a', "w.pdf", 3⟩ : RawChunk) ∈
      chunkText [⟨List.replicate 60 'a', 3⟩] "w.pdf" := by
  refine (c5_chunker_window_contract [⟨List.replicate 60 'a', 3⟩] "w.pdf"
    ⟨List.replicate 60 'a', "w.pdf", 3⟩).mpr ?_
  exact ⟨⟨List.replicate 60 'a', 3⟩, by simp, 0, by decide, by decide, by decide,
    rfl, rfl⟩

/-- Claim C5 counterexample: a page of 60 blank characters.  Its single
window trims to the empty string (trimmed length 0, not exceeding 50), so
under the claim as stated no chunk would be emitted; the code nevertheless
emits the window because its RAW length 60 exceeds 50. -/
theorem c5_counterexample :
    chunkText [⟨List.replicate 60 ' ', 1⟩] "doc.pdf" =
        [⟨List.replicate 60 ' ', "doc.pdf", 1⟩] ∧
      (trimChars (List.replicate 60 ' ')).length = 0 := by
  decide

/-! ## Claim C7: overlap of consecutive chunks of one page -/

/-- Two chunks share exactly the 50-character overlap: the last 50
characters of the first equal the first 50 characters of the second. -/
def overlapRel (a b : RawChunk) : Prop :=
  a.text.drop (a.text.length - 50) = b.text.take 50 ∧
    (a.text.drop (a.text.length - 50)).length = 50

/-- A loop starting on a window of raw length at most 50 emits nothing:
window lengths only shrink as the offset grows. -/
theorem chunkPageGo_eq_nil (text : List Char) (f : String) (p : Nat) :
    ∀ fuel i, ¬ 50 < ((text.drop i).take 500).length →
      chunkPageGo text f p fuel i = [] := by
  intro fuel
  induction fuel with
  | zero => intro i _; rfl
  | succ fuel ih =>
    intro i hw
    rw [chunkPageGo_succ]
    by_cases hi : i < text.length
    · rw [if_pos hi, if_neg hw, List.nil_append]
      apply ih
      simp only [List.length_take, List.length_drop] at hw ⊢
      omega
    · rw [if_neg hi]

/-- The head of a nonempty loop output is the window at the current loop
offset, and that window is long enough to be emitted. -/
theorem chunkPageGo_head (text : List Char) (f : String) (p : Nat) :
    ∀ fuel i c rest, chunkPageGo text f p fuel i = c :: rest →
      c = ⟨(text.drop i).take 500, f, p⟩ ∧
        50 < ((text.drop i).take 500).length := by
  intro fuel i c rest h
  cases fuel with
  | zero => simp [chunkPageGo] at h
  | succ fuel =>
    rw [chunkPageGo_succ] at h
    by_cases hi : i < text.length
    · rw [if_pos hi] at h
      by_cases hw : 50 < ((text.drop i).take 500).length
      · rw [if_pos hw, List.singleton_append] at h
        injection h with h1 h2
        exact ⟨h1.symm, hw⟩
      · rw [if_neg hw, List.nil_append, chunkPageGo_eq_nil text f p fuel (i + 450)
          (by simp only [List.length_take, List.length_drop] at hw ⊢; omega)] at h
        exact absurd h (List.cons_ne_nil c rest).symm
    · rw [if_neg hi] at h
      exact absurd h (List.cons_ne_nil c rest).symm

/-- Any two consecutive chunks emitted by the loop overlap in exactly 50
characters. -/
theorem chain'_chunkPageGo (text : List Char) (f : String) (p : Nat) :
    ∀ fuel i, List.Chain' overlapRel (chunkPageGo text f p fuel i) := by
  intro fuel
  induction fuel with
  | zero => intro i; simp [chunkPageGo]
  | succ fuel ih =>
    intro i
    rw [chunkPageGo_succ]
    by_cases hi : i < text.length
    · rw [if_pos hi]
      by_cases hw : 50 < ((text.drop i).take 500).length
      · rw [if_pos hw, List.singleton_append]
        refine List.chain'_cons'.mpr ⟨?_, ih (i + 450)⟩
        intro b hb
        cases htail : chunkPageGo text f p fuel (i + 450) with
        | nil => rw [htail] at hb; simp at hb
        | cons c' rest =>
          rw [htail] at hb
          simp only [List.head?_cons, Option.mem_def, Option.some.injEq] at hb
          subst hb
          obtain ⟨rfl, hw'⟩ := chunkPageGo_head text f p fuel (i + 450) c' rest htail
          have hlong : i + 500 < text.length := by
            simp only [List.length_take, List.length_drop] at hw'
            omega
          have hfull : ((text.drop i).take 500).length = 500 := by
            simp only [List.length_take, List.length_drop]
            omega
          constructor
          · rw [hfull]
            dsimp only
            rw [List.drop_take 500 450, List.drop_drop, List.take_take]
            norm_num
          · rw [hfull]
            simp only [List.length_drop, List.length_take, List.length_drop]
            omega
      · rw [if_neg hw, List.nil_append]
        exact ih (i + 450)
    · rw [if_neg hi]
      exact List.chain'_nil

/-- Claim C7: for every page whose text is longer than 500 characters, any
two consecutive chunks the chunker emits from that page share exactly 50
characters of text: the last 50 characters of the earlier chunk equal the
first 50 characters of the later chunk. -/
theorem c7_consecutive_chunks_overlap (text : List Char) (f : String) (p : Nat)
    (h : 500 < text.length) :
    List.Chain' overlapRel (chunkPage text f p) :=
  chain'_chunkPageGo text f p text.length 0

/-- Claim C7 witness: a concrete page of 501 characters. -/
theorem c7_consecutive_chunks_overlap_witness :
    500 < (List.replicate 501 'a').length ∧
      List.Chain' overlapRel (chunkPage (List.replicate 501 'a') "w.pdf" 2) :=
  ⟨by simp, c7_consecutive_chunks_overlap (List.replicate 501 'a') "w.pdf" 2 (by simp)⟩

/-! ## Streaming wire contract
(src/netlify/edge-functions/gemini-proxy.ts, action stream-chat, and the
stream reader of generateRagResponse in src/services/geminiService.ts) -/

/-- The stream-chat branch of the edge proxy: for every chunk of the
provider stream it enqueues the UTF-8 encoding of the text of that chunk,
verbatim; the TextEncoder/TextDecoder round trip is modelled as the
identity on the text.  One provider chunk becomes exactly one wire chunk. -/
def proxyWireChunks (providerChunks : List (List Char)) : List (List Char) :=
  providerChunks.map fun chunkText => chunkText

/-- The client-side stream read loop of generateRagResponse:
while not done, decode the next wire chunk, append it to fullText
(fullText += chunkText) and invoke onChunk(fullText).  Returns the list of
onChunk arguments in call order together with the returned fullText. -/
def clientReadLoop : List (List Char) → List Char → List (List Char) × List Char
  | [], fullText => ([], fullText)
  | w :: rest, fullText =>
    let fullText2 := fullText ++ w
    let r := clientReadLoop rest fullText2
    (fullText2 :: r.1, r.2)

/-- Arguments passed to onChunk, in order, when the reader consumes the
given wire chunks. -/
def clientOnChunkCalls (wire : List (List Char)) : List (List Char) :=
  (clientReadLoop wire []).1

/-- The final text the reader returns after the stream closes. -/
def clientFinalText (wire : List (List Char)) : List Char :=
  (clientReadLoop wire []).2

/-- Modelled from the spec (amended): the running concatenations of a list
of delta chunks relative to an already-accumulated text. -/
def cumConcats : List Char → List (List Char) → List (List Char)
  | _, [] => []
  | acc, w :: rest => (acc ++ w) :: cumConcats (acc ++ w) rest

/-- Concatenation of all chunks of a stream. -/
def flattenChunks : List (List Char) → List Char
  | [] => []
  | w :: rest => w ++ flattenChunks rest

/-- The read loop computes running concatenations and their total. -/
theorem clientReadLoop_eq (wire : List (List Char)) :
    ∀ acc, clientReadLoop wire acc = (cumConcats acc wire, acc ++ flattenChunks wire) := by
  induction wire with
  | nil => intro acc; simp [clientReadLoop, cumConcats, flattenChunks]
  | cons w rest ih =>
    intro acc
    simp [clientReadLoop, cumConcats, flattenChunks, ih (acc ++ w), List.append_assoc]

/-- Claim C2 counterexample: take the two-chunk wire stream
["He", "Hello"], which satisfies the claimed non-delta contract (each wire
chunk is the entire accumulated answer so far).  Were the reader to
preserve that contract, its onChunk calls would be exactly ["He", "Hello"];
instead the reader appends, so the second onChunk call carries the
duplicated text "HeHello". -/
theorem c2_counterexample :
    clientOnChunkCalls (proxyWireChunks [['H','e'], ['H','e','l','l','o']]) ≠
        [['H','e'], ['H','e','l','l','o']] ∧
      clientOnChunkCalls (proxyWireChunks [['H','e'], ['H','e','l','l','o']]) =
        [['H','e'], ['H','e','H','e','l','l','o']] := by
  decide

/-- Claim C2 (amended): the wire between the proxy and the client carries
DELTA chunks — the proxy forwards each provider chunk verbatim as exactly
one wire chunk — and the client-side reader accumulates them: the i-th
invocation of onChunk carries the concatenation of the first i wire chunks
(which, under the delta contract, is the full accumulated answer so far),
and the reader returns the concatenation of the whole stream. -/
theorem c2_stream_delta_contract (providerChunks : List (List Char)) :
    proxyWireChunks providerChunks = providerChunks ∧
      clientOnChunkCalls (proxyWireChunks providerChunks) =
        cumConcats [] providerChunks ∧
      clientFinalText (proxyWireChunks providerChunks) =
        flattenChunks providerChunks := by
  have hid : proxyWireChunks providerChunks = providerChunks := by
    simp [proxyWireChunks]
  refine ⟨hid, ?_, ?_⟩
  · rw [hid, clientOnChunkCalls, clientReadLoop_eq]
  · rw [hid, clientFinalText, clientReadLoop_eq]
    simp

/-! ## Data model (src/types.ts) -/

/-- Role of a chat message (types.ts enum Role). -/
inductive Role where
  | user
  | model
deriving DecidableEq

/-- A chat message (types.ts interface Message).  The optional isStreaming
flag defaults to false (absent) and sources to the empty list. -/
structure Message where
  id : String
  role : Role
  text : List Char
  timestamp : Nat
  isStreaming : Bool := false
  sources : List (String × Nat) := []
deriving DecidableEq

/-! ## RAG generation service
(src/unnamed/part_003, proxy variant with history compression, and
src/services/geminiService.ts).  The generation/summarization provider and
the wire stream are passed in as explicit parameters. -/

/-- A retrieved context chunk as passed to generateRagResponse. -/
structure ContextChunk where
  text : List Char
  sourceFileName : String
  pageNumber : Option Nat
deriving DecidableEq

/-- The page label in the context annotation: JS c.pageNumber falling back to N/A
is the page number unless it is absent or 0 (both falsy). -/
def pageLabel (c : ContextChunk) : List Char :=
  match c.pageNumber with
  | some n => if n = 0 then "N/A".toList else (toString n).toList
  | none => "N/A".toList

/-- The annotated context block of one chunk:
`[Source: name, Page: label]` newline, then the chunk text. -/
def formatContextChunk (c : ContextChunk) : List Char :=
  "[Source: ".toList ++ c.sourceFileName.toList ++ ", Page: ".toList ++
    pageLabel c ++ "]\n".toList ++ c.text

/-- JS Array.join with a separator. -/
def joinSep (sep : List Char) : List (List Char) → List Char
  | [] => []
  | [x] => x
  | x :: xs => x ++ sep ++ joinSep sep xs

/-- The assembled context text: annotated chunks joined by the
`\n\n---\n\n` separator. -/
def contextTextOf (contextChunks : List ContextChunk) : List Char :=
  joinSep "\n\n---\n\n".toList (contextChunks.map formatContextChunk)

/-- Approximate size used for the compression decision (part_003 line 331):
history text lengths plus context text length. -/
def totalCharsOf (history : List Message) (contextChunks : List ContextChunk) : Nat :=
  (history.map fun m => m.text.length).sum + (contextTextOf contextChunks).length

/-- Character budget before compression triggers (part_003). -/
def MAX_CONTEXT_CHARS : Nat := 20000

/-- Advisory target size after compression (part_003, unused by the flow). -/
def COMPRESSION_TARGET_CHARS : Nat := 10000

/-- History cap of the geminiService.ts variant. -/
def MAX_HISTORY_TURNS : Nat := 15

/-- Tag prepended to the synthetic summary message text. -/
def SYSTEM_NOTE_TAG : List Char :=
  "[System Note: Previous conversation summary]: ".toList

/-- Placeholder when the summarization response has empty text. -/
def SUMMARY_UNAVAILABLE : List Char :=
  "Previous conversation summary unavailable.".toList

/-- summarizeHistory (part_003 lines 257-293).  `summaryResponse` is the
outcome of the summarization proxy call: `.error` models a thrown error
(the function then falls back to the original history), `.ok t` a response
whose text is `t` (empty text falls back to a placeholder).  `now` models
Date.now(). -/
def summarizeHistory (history : List Message)
    (summaryResponse : Except Unit (List Char)) (now : Nat) : List Message :=
  let recentMessages := history.drop (history.length - 4)
  let olderMessages := history.take (history.length - 4)
  if olderMessages.length = 0 then history
  else
    match summaryResponse with
    | .error _ => history
    | .ok t =>
      { id := "summary-" ++ toString now
        role := Role.model
        text := SYSTEM_NOTE_TAG ++ (if t = [] then SUMMARY_UNAVAILABLE else t)
        timestamp := now } :: recentMessages

/-- Equality of Except values is decidable componentwise. -/
instance {ε α : Type} [DecidableEq ε] [DecidableEq α] : DecidableEq (Except ε α) :=
  fun x y =>
    match x, y with
    | .error e₁, .error e₂ =>
      if h : e₁ = e₂ then isTrue (by rw [h])
      else isFalse (by intro hc; cases hc; exact h rfl)
    | .error _, .ok _ => isFalse (by intro hc; cases hc)
    | .ok _, .error _ => isFalse (by intro hc; cases hc)
    | .ok a₁, .ok a₂ =>
      if h : a₁ = a₂ then isTrue (by rw [h])
      else isFalse (by intro hc; cases hc; exact h rfl)

/-- Observable outcome of one generateRagResponse call: the onChunk
arguments in order, the history and message of the stream-chat payload,
whether the summarization and streaming provider requests were issued, and
the returned or thrown result. -/
structure RagCallResult where
  onChunkCalls : List (List Char)
  sentHistory : List (Role × List Char)
  sentMessage : List Char
  summarizeRequested : Bool
  streamRequested : Bool
  result : Except String (List Char)
deriving DecidableEq

/-- generateRagResponse, part_003 variant (lines 295-386): maps the
history, pops the last message and rejects an absent or empty-text last
message before any provider request; compresses the remaining history when
the combined size exceeds MAX_CONTEXT_CHARS; then issues the stream-chat
request and drives onChunk through the read loop. -/
def generateRagResponseP3 (history : List Message)
    (contextChunks : List ContextChunk)
    (summaryResponse : Except Unit (List Char)) (now : Nat)
    (wire : List (List Char)) : RagCallResult :=
  let fullChatHistory := history.map fun m => (m.role, m.text)
  match fullChatHistory.getLast? with
  | none => ⟨[], [], [], false, false, .error "No user message found"⟩
  | some lastMessage =>
    if lastMessage.2 = [] then
      ⟨[], [], [], false, false, .error "No user message found"⟩
    else
      let totalChars := totalCharsOf history contextChunks
      let processedHistory :=
        if MAX_CONTEXT_CHARS < totalChars then
          summarizeHistory history.dropLast summaryResponse now
        else
          history.dropLast
      let finalHistoryForModel := processedHistory.map fun m => (m.role, m.text)
      let r := clientReadLoop wire []
      ⟨r.1, finalHistoryForModel, lastMessage.2,
        decide (MAX_CONTEXT_CHARS < totalChars) &&
          decide (4 < history.dropLast.length),
        true, .ok r.2⟩

/-- generateRagResponse, src/services/geminiService.ts variant
(lines 129-200): same pop-and-validate preflight, no compression; the sent
history is the last MAX_HISTORY_TURNS * 2 mapped messages. -/
def generateRagResponseGS (history : List Message)
    (contextChunks : List ContextChunk)
    (wire : List (List Char)) : RagCallResult :=
  let fullChatHistory := history.map fun m => (m.role, m.text)
  match fullChatHistory.getLast? with
  | none => ⟨[], [], [], false, false, .error "No user message found"⟩
  | some lastMessage =>
    if lastMessage.2 = [] then
      ⟨[], [], [], false, false, .error "No user message found"⟩
    else
      let poppedHistory := fullChatHistory.dropLast
      let recentHistory :=
        poppedHistory.drop (poppedHistory.length - MAX_HISTORY_TURNS * 2)
      let r := clientReadLoop wire []
      ⟨r.1, recentHistory, lastMessage.2, false, true, .ok r.2⟩

/-- Claim C10: with an empty history, or a history whose last message has
empty text, generateRagResponse (either variant) throws
"No user message found" before issuing any provider request: no
summarization request, no stream request, and no onChunk invocation. -/
theorem c10_empty_history_rejected (history : List Message)
    (contextChunks : List ContextChunk)
    (summaryResponse : Except Unit (List Char)) (now : Nat)
    (wire : List (List Char))
    (h : history = [] ∨ ∃ m, history.getLast? = some m ∧ m.text = []) :
    generateRagResponseP3 history contextChunks summaryResponse now wire =
        ⟨[], [], [], false, false, .error "No user message found"⟩ ∧
      generateRagResponseGS history contextChunks wire =
        ⟨[], [], [], false, false, .error "No user message found"⟩ := by
  rcases h with rfl | ⟨m, hm, htext⟩
  · exact ⟨rfl, rfl⟩
  · have hmap : (history.map fun m => (m.role, m.text)).getLast? =
        some (m.role, m.text) := by
      rw [List.getLast?_map, hm]; rfl
    constructor
    · simp [generateRagResponseP3, hmap, htext]
    · simp [generateRagResponseGS, hmap, htext]

/-- Claim C10 witness: the empty history is rejected by both variants. -/
theorem c10_empty_history_rejected_witness :
    generateRagResponseP3 [] [] (.ok []) 0 [] =
        ⟨[], [], [], false, false, .error "No user message found"⟩ ∧
      generateRagResponseGS [] [] [] =
        ⟨[], [], [], false, false, .error "No user message found"⟩ :=
  c10_empty_history_rejected [] [] (.ok []) 0 [] (Or.inl rfl)

/-- On the success path of the preflight checks, the history sent with the
stream-chat payload is the mapped processed history. -/
theorem generateRagResponseP3_sentHistory (history : List Message)
    (contextChunks : List ContextChunk)
    (summaryResponse : Except Unit (List Char)) (now : Nat)
    (wire : List (List Char)) (hne : history ≠ [])
    (hlast : (history.getLast hne).text ≠ []) :
    (generateRagResponseP3 history contextChunks summaryResponse now
        wire).sentHistory =
      (if MAX_CONTEXT_CHARS < totalCharsOf history contextChunks then
        summarizeHistory history.dropLast summaryResponse now
      else history.dropLast).map fun m => (m.role, m.text) := by
  have hmap : (history.map fun m => (m.role, m.text)).getLast? =
      some ((history.getLast hne).role, (history.getLast hne).text) := by
    rw [List.getLast?_map, List.getLast?_eq_getLast history hne]; rfl
  simp only [generateRagResponseP3, hmap, hlast, if_neg, ite_false]

/-- A history with more than 4 messages is compressed to one synthetic
model-authored system-note message followed by the last 4 messages. -/
theorem summarizeHistory_of_long (l : List Message) (t : List Char) (now : Nat)
    (hlen : 4 < l.length) (ht : t ≠ []) :
    summarizeHistory l (.ok t) now =
      ⟨"summary-" ++ toString now, Role.model, SYSTEM_NOTE_TAG ++ t, now,
        false, []⟩ :: l.drop (l.length - 4) := by
  have holder : (l.take (l.length - 4)).length ≠ 0 := by
    simp only [List.length_take]
    omega
  simp only [summarizeHistory, holder, if_neg, ite_false, ht]

/-- A history with at most 4 messages is returned unchanged (no summary
message is prepended, even when the size budget is exceeded). -/
theorem summarizeHistory_of_short (l : List Message)
    (summaryResponse : Except Unit (List Char)) (now : Nat)
    (hlen : l.length ≤ 4) :
    summarizeHistory l summaryResponse now = l := by
  have holder : (l.take (l.length - 4)).length = 0 := by
    simp only [List.length_take]
    omega
  simp only [summarizeHistory, holder, if_pos, ite_true]

/-- Claim C4 (amended): when the combined character length of the history
plus the context text exceeds 20000 AND more than 4 messages precede the
current query, the history sent to the generator is exactly one synthetic
model-authored system-note summary message followed by the most recent 4
pre-query messages verbatim; when the limit is exceeded but at most 4
messages precede the query, the pre-query history is passed through
unchanged (no summary is prepended — this is the case the original claim
missed); when the limit is not exceeded, compression is the identity aside
from excluding the current query message. -/
theorem c4_compression_contract (history : List Message)
    (contextChunks : List ContextChunk) (summaryText : List Char) (now : Nat)
    (wire : List (List Char)) (hne : history ≠ [])
    (hlast : (history.getLast hne).text ≠ []) (hsum : summaryText ≠ []) :
    (MAX_CONTEXT_CHARS < totalCharsOf history contextChunks →
      4 < history.dropLast.length →
      (generateRagResponseP3 history contextChunks (.ok summaryText) now
          wire).sentHistory =
        (Role.model, SYSTEM_NOTE_TAG ++ summaryText) ::
          (history.dropLast.drop (history.dropLast.length - 4)).map
            (fun m => (m.role, m.text))) ∧
    (MAX_CONTEXT_CHARS < totalCharsOf history contextChunks →
      history.dropLast.length ≤ 4 →
      (generateRagResponseP3 history contextChunks (.ok summaryText) now
          wire).sentHistory =
        history.dropLast.map fun m => (m.role, m.text)) ∧
    (totalCharsOf history contextChunks ≤ MAX_CONTEXT_CHARS →
      (generateRagResponseP3 history contextChunks (.ok summaryText) now
          wire).sentHistory =
        history.dropLast.map fun m => (m.role, m.text)) := by
  refine ⟨?_, ?_, ?_⟩
  · intro hover hlen
    rw [generateRagResponseP3_sentHistory history contextChunks (.ok summaryText)
        now wire hne hlast, if_pos hover,
      summarizeHistory_of_long history.dropLast summaryText now hlen hsum]
    rfl
  · intro hover hlen
    rw [generateRagResponseP3_sentHistory history contextChunks (.ok summaryText)
        now wire hne hlast, if_pos hover,
      summarizeHistory_of_short history.dropLast (.ok summaryText) now hlen]
  · intro hunder
    rw [generateRagResponseP3_sentHistory history contextChunks (.ok summaryText)
        now wire hne hlast, if_neg (not_lt.mpr hunder)]

/-- On the success path, the summarization request is issued exactly when
the size budget is exceeded and more than 4 messages precede the query. -/
theorem generateRagResponseP3_summarizeRequested (history : List Message)
    (contextChunks : List ContextChunk)
    (summaryResponse : Except Unit (List Char)) (now : Nat)
    (wire : List (List Char)) (hne : history ≠ [])
    (hlast : (history.getLast hne).text ≠ []) :
    (generateRagResponseP3 history contextChunks summaryResponse now
        wire).summarizeRequested =
      (decide (MAX_CONTEXT_CHARS < totalCharsOf history contextChunks) &&
        decide (4 < history.dropLast.length)) := by
  have hmap : (history.map fun m => (m.role, m.text)).getLast? =
      some ((history.getLast hne).role, (history.getLast hne).text) := by
    rw [List.getLast?_map, List.getLast?_eq_getLast history hne]; rfl
  simp only [generateRagResponseP3, hmap, hlast, if_neg, ite_false]

/-- Length of the annotated context block of a chunk named big.pdf with no
page number: a 29-character annotation plus the chunk text. -/
theorem formatBigChunk_length (big : List Char) :
    (formatContextChunk ⟨big, "big.pdf", none⟩).length = 29 + big.length := by
  simp [formatContextChunk, pageLabel]
  omega

/-- Context text length for a single big.pdf chunk. -/
theorem contextTextOf_bigChunk_length (big : List Char) :
    (contextTextOf [⟨big, "big.pdf", none⟩]).length = 29 + big.length := by
  rw [contextTextOf]
  simp only [List.map_cons, List.map_nil, joinSep]
  exact formatBigChunk_length big

/-- Combined size with a single big.pdf context chunk. -/
theorem totalCharsOf_bigChunk (history : List Message) (big : List Char) :
    totalCharsOf history [⟨big, "big.pdf", none⟩] =
      (history.map fun m => m.text.length).sum + (29 + big.length) := by
  rw [totalCharsOf, contextTextOf_bigChunk_length]

/-- Claim C4 counterexample: a two-message conversation (one prior message
plus the current query) over a 20000-character retrieved context.  The
combined character length is 20031 > 20000, yet the history sent to the
generator is the single pre-query message unchanged — no synthetic summary
message is prepended and no summarization request is issued, contradicting
the claim that over-limit histories always gain exactly one summary
message. -/
theorem c4_counterexample :
    MAX_CONTEXT_CHARS <
        totalCharsOf
          [⟨"m1", Role.user, ['x'], 0, false, []⟩,
            ⟨"m2", Role.user, ['q'], 1, false, []⟩]
          [⟨List.replicate 20000 'c', "big.pdf", none⟩] ∧
      (generateRagResponseP3
          [⟨"m1", Role.user, ['x'], 0, false, []⟩,
            ⟨"m2", Role.user, ['q'], 1, false, []⟩]
          [⟨List.replicate 20000 'c', "big.pdf", none⟩]
          (.ok ['S']) 0 []).sentHistory = [(Role.user, ['x'])] ∧
      (generateRagResponseP3
          [⟨"m1", Role.user, ['x'], 0, false, []⟩,
            ⟨"m2", Role.user, ['q'], 1, false, []⟩]
          [⟨List.replicate 20000 'c', "big.pdf", none⟩]
          (.ok ['S']) 0 []).summarizeRequested = false := by
  have hbig : (List.replicate 20000 'c').length = 20000 := by
    rw [List.length_replicate]
  have hne : ([⟨"m1", Role.user, ['x'], 0, false, []⟩,
      ⟨"m2", Role.user, ['q'], 1, false, []⟩] : List Message) ≠ [] := by
    simp
  have hlast : (([⟨"m1", Role.user, ['x'], 0, false, []⟩,
      ⟨"m2", Role.user, ['q'], 1, false, []⟩] : List Message).getLast hne).text ≠ [] := by
    show (['q'] : List Char) ≠ []
    decide
  have hover : MAX_CONTEXT_CHARS <
      totalCharsOf
        [⟨"m1", Role.user, ['x'], 0, false, []⟩,
          ⟨"m2", Role.user, ['q'], 1, false, []⟩]
        [⟨List.replicate 20000 'c', "big.pdf", none⟩] := by
    rw [totalCharsOf_bigChunk, hbig]
    norm_num [MAX_CONTEXT_CHARS]
  refine ⟨hover, ?_, ?_⟩
  · rw [generateRagResponseP3_sentHistory _ _ _ _ _ hne hlast, if_pos hover,
      summarizeHistory_of_short _ _ _ (by decide)]
    rfl
  · rw [generateRagResponseP3_summarizeRequested _ _ _ _ _ hne hlast]
    have h2 : decide (4 < (([⟨"m1", Role.user, ['x'], 0, false, []⟩,
        ⟨"m2", Role.user, ['q'], 1, false, []⟩] : List Message).dropLast).length) =
        false := by decide
    rw [h2, Bool.and_false]

/-- Claim C4 witness: a six-message conversation over a 20000-character
context is compressed to one system-note summary message plus the last four
pre-query messages, via the contract theorem. -/
theorem c4_compression_contract_witness :
    (generateRagResponseP3
        [⟨"u1", Role.user, ['a'], 0, false, []⟩,
          ⟨"a1", Role.model, ['b'], 1, false, []⟩,
          ⟨"u2", Role.user, ['c'], 2, false, []⟩,
          ⟨"a2", Role.model, ['d'], 3, false, []⟩,
          ⟨"u3", Role.user, ['e'], 4, false, []⟩,
          ⟨"q", Role.user, ['f'], 5, false, []⟩]
        [⟨List.replicate 20000 'c', "big.pdf", none⟩]
        (.ok ['S']) 7 []).sentHistory =
      (Role.model, SYSTEM_NOTE_TAG ++ ['S']) ::
        [(Role.model, ['b']), (Role.user, ['c']), (Role.model, ['d']),
          (Role.user, ['e'])] := by
  have hbig : (List.replicate 20000 'c').length = 20000 := by
    rw [List.length_replicate]
  have hne : ([⟨"u1", Role.user, ['a'], 0, false, []⟩,
      ⟨"a1", Role.model, ['b'], 1, false, []⟩,
      ⟨"u2", Role.user, ['c'], 2, false, []⟩,
      ⟨"a2", Role.model, ['d'], 3, false, []⟩,
      ⟨"u3", Role.user, ['e'], 4, false, []⟩,
      ⟨"q", Role.user, ['f'], 5, false, []⟩] : List Message) ≠ [] := by
    simp
  have hover : MAX_CONTEXT_CHARS <
      totalCharsOf
        [⟨"u1", Role.user, ['a'], 0, false, []⟩,
          ⟨"a1", Role.model, ['b'], 1, false, []⟩,
          ⟨"u2", Role.user, ['c'], 2, false, []⟩,
          ⟨"a2", Role.model, ['d'], 3, false, []⟩,
          ⟨"u3", Role.user, ['e'], 4, false, []⟩,
          ⟨"q", Role.user, ['f'], 5, false, []⟩]
        [⟨List.replicate 20000 'c', "big.pdf", none⟩] := by
    rw [totalCharsOf_bigChunk, hbig]
    norm_num [MAX_CONTEXT_CHARS]
  exact ((c4_compression_contract _ _ ['S'] 7 [] hne
    (by show (['f'] : List Char) ≠ []; decide) (by decide)).1
    hover (by decide)).trans rfl

/-! ## Chat-list state updates of handleSendMessage (src/App.tsx) -/

/-- Chat scope type (types.ts enum ChatType). -/
inductive ChatType where
  | global
  | dedicated
deriving DecidableEq

/-- A chat session (types.ts interface ChatSession; the TS field `type` is
called ctype here because type is reserved in Lean). -/
structure ChatSession where
  id : String
  title : String
  ctype : ChatType
  messages : List Message
  createdAt : Nat
deriving DecidableEq

/-- The onStream callback of handleSendMessage (App.tsx lines 620-629): one
arriving chunk replaces — wholesale — the text of the streaming placeholder
message (id modelMsgId) in the current chat. -/
def applyStreamChunk (chats : List ChatSession)
    (currentChatId modelMsgId : String) (chunkText : List Char) :
    List ChatSession :=
  chats.map fun c =>
    if c.id = currentChatId then
      { c with
        messages := c.messages.map fun m =>
          if m.id = modelMsgId then { m with text := chunkText } else m }
    else c

/-- The cumulative effect of a streaming generation: the increments are
applied through the onStream callback in delivery order. -/
def applyStreamChunks (chats : List ChatSession)
    (currentChatId modelMsgId : String) (increments : List (List Char)) :
    List ChatSession :=
  increments.foldl
    (fun cs t => applyStreamChunk cs currentChatId modelMsgId t) chats

/-- After one chunk is applied, every matching message in the current chat
carries exactly the text of that chunk. -/
theorem applyStreamChunk_text (chats : List ChatSession)
    (cid mid : String) (t : List Char) :
    ∀ c ∈ applyStreamChunk chats cid mid t, c.id = cid →
      ∀ m ∈ c.messages, m.id = mid → m.text = t := by
  intro c hc hcid m hm hmid
  simp only [applyStreamChunk, List.mem_map] at hc
  obtain ⟨c₀, hc₀, rfl⟩ := hc
  by_cases h : c₀.id = cid
  · rw [if_pos h] at hm
    simp only [List.mem_map] at hm
    obtain ⟨m₀, hm₀, rfl⟩ := hm
    by_cases hmsg : m₀.id = mid
    · rw [if_pos hmsg]
    · rw [if_neg hmsg] at hmid
      exact absurd hmid hmsg
  · rw [if_neg h] at hcid
    exact absurd hcid h

/-- Claim C6: for every sequence of text increments delivered in order to
the streaming callback, each increment replaces the text of the streaming message
wholesale, so after the last increment the text of the message equals
exactly the last increment — never a concatenation of increments. -/
theorem c6_streaming_replaces_text (chats : List ChatSession)
    (cid mid : String) (increments : List (List Char))
    (hne : increments ≠ []) :
    ∀ c ∈ applyStreamChunks chats cid mid increments, c.id = cid →
      ∀ m ∈ c.messages, m.id = mid → m.text = increments.getLast hne := by
  obtain ⟨front, t, hsplit⟩ : ∃ l' a, increments = l' ++ [a] :=
    ⟨increments.dropLast, increments.getLast hne,
      (List.dropLast_append_getLast hne).symm⟩
  subst hsplit
  rw [applyStreamChunks, List.foldl_append, List.foldl_cons, List.foldl_nil]
  intro c hc hcid m hm hmid
  rw [List.getLast_append]
  exact applyStreamChunk_text _ cid mid t c hc hcid m hm hmid

/-- Claim C6 witness: applying the increments H, He, Hell, Hello to a chat
with one streaming placeholder leaves exactly the text Hello — the full
final state is computed, and the message text is obtained through the
claim's theorem. -/
theorem c6_streaming_replaces_text_witness :
    applyStreamChunks
        [⟨"c1", "T", ChatType.global,
          [⟨"msg", Role.model, [], 0, true, []⟩], 0⟩] "c1" "msg"
        [['H'], ['H','e'], ['H','e','l','l'], ['H','e','l','l','o']] =
      [⟨"c1", "T", ChatType.global,
        [⟨"msg", Role.model, ['H','e','l','l','o'], 0, true, []⟩], 0⟩] ∧
      (⟨"msg", Role.model, ['H','e','l','l','o'], 0, true, []⟩ : Message).text =
        ['H','e','l','l','o'] :=
  ⟨by decide,
    c6_streaming_replaces_text
      [⟨"c1", "T", ChatType.global,
        [⟨"msg", Role.model, [], 0, true, []⟩], 0⟩] "c1" "msg"
      [['H'], ['H','e'], ['H','e','l','l'], ['H','e','l','l','o']] (by decide)
      ⟨"c1", "T", ChatType.global,
        [⟨"msg", Role.model, ['H','e','l','l','o'], 0, true, []⟩], 0⟩
      (by decide) rfl
      ⟨"msg", Role.model, ['H','e','l','l','o'], 0, true, []⟩
      (by decide) rfl⟩

/-- The catch handler of handleSendMessage (App.tsx lines 671-680): on a
generation failure it rewrites the message list of the current chat to
messages.filter(m => m.isStreaming). -/
def handleSendErrorRollback (chats : List ChatSession)
    (currentChatId : String) : List ChatSession :=
  chats.map fun c =>
    if c.id = currentChatId then
      { c with messages := c.messages.filter fun m => m.isStreaming }
    else c

/-- Claim C1 evidence: evaluating the error rollback on a chat holding two
finalized messages and one in-flight streaming message.  The code KEEPS
only the half-written streaming message and DELETES every finalized
message — the exact inverse of the claimed behavior (discard the in-flight
message, keep finalized history).  The filter predicate lacks a negation. -/
theorem c1_error_rollback_keeps_streaming :
    handleSendErrorRollback
        [⟨"chat1", "T", ChatType.global,
          [⟨"m1", Role.user, ['h','i'], 0, false, []⟩,
            ⟨"m2", Role.model, ['o','k'], 1, false, []⟩,
            ⟨"m3", Role.model, ['p','a'], 2, true, []⟩], 0⟩] "chat1" =
      [⟨"chat1", "T", ChatType.global,
        [⟨"m3", Role.model, ['p','a'], 2, true, []⟩], 0⟩] := by
  decide

/-! ## Vector search
(src/supabase/migrations/20260202212000_initial_schema.sql, function
match_rag_chunks, and VectorStore.search in src/unnamed/part_002).
The pgvector cosine-distance operator is an external engine; it enters the
model as an explicit distance function parameter, and the SQL expression
1 - (embedding <=> query) is the similarity. -/

/-- A row of the documents table. -/
structure DocumentRow where
  id : String
  fileName : String
  uploadTimestamp : Nat
  scope : String
  chunkCount : Nat
deriving DecidableEq

/-- A row of the rag_chunks table. -/
structure ChunkRow where
  id : String
  documentId : String
  text : List Char
  embedding : List ℚ
  pageNumber : Option Nat
deriving DecidableEq

/-- The two tables match_rag_chunks reads. -/
structure RagDb where
  documents : List DocumentRow
  ragChunks : List ChunkRow
deriving DecidableEq

/-- A row of the table match_rag_chunks returns. -/
structure MatchRow where
  id : String
  text : List Char
  fileName : String
  pageNumber : Option Nat
  similarity : ℚ
deriving DecidableEq

/-- Descending-similarity order used by ORDER BY similarity DESC. -/
def simGE (a b : MatchRow) : Prop := b.similarity ≤ a.similarity

instance : DecidableRel simGE := fun a b =>
  inferInstanceAs (Decidable (b.similarity ≤ a.similarity))

instance : IsTotal MatchRow simGE :=
  ⟨fun a b => le_total b.similarity a.similarity⟩

instance : IsTrans MatchRow simGE :=
  ⟨fun _ _ _ hab hbc => le_trans hbc hab⟩

/-- match_rag_chunks (initial_schema.sql lines 71-98): join rag_chunks with
documents on document_id, keep rows whose similarity exceeds the threshold
and whose document scope is global or the filter scope, order by similarity
descending, and return at most match_count rows. -/
def matchRagChunks (db : RagDb) (dist : List ℚ → List ℚ → ℚ)
    (queryEmbedding : List ℚ) (matchThreshold : ℚ) (matchCount : Nat)
    (filterScope : String) : List MatchRow :=
  let joined := db.ragChunks.flatMap fun ch =>
    (db.documents.filter fun d => d.id == ch.documentId).map fun d => (ch, d)
  let filtered := joined.filter fun p =>
    decide (matchThreshold < 1 - dist p.1.embedding queryEmbedding) &&
      (p.2.scope == "global" || p.2.scope == filterScope)
  let rows := filtered.map fun p =>
    MatchRow.mk p.1.id p.1.text p.2.fileName p.1.pageNumber
      (1 - dist p.1.embedding queryEmbedding)
  (rows.insertionSort simGE).take matchCount

/-- A chunk as surfaced to the UI (types.ts interface RagChunk). -/
structure RagChunk where
  id : String
  text : List Char
  embedding : List ℚ
  sourceFileName : String
  pageNumber : Option Nat
deriving DecidableEq

/-- A search hit (types.ts interface VectorSearchResult). -/
structure VectorSearchResult where
  chunk : RagChunk
  similarity : ℚ
deriving DecidableEq

/-- Options of VectorStore.search (part_002 interface SearchOptions);
metadataFilter is accepted but never forwarded to the RPC. -/
structure SearchOptions where
  filterScope : Option String := none
  metadataFilter : Option Unit := none
  topK : Option Nat := none

/-- VectorStore.search (part_002 lines 32-66): defaults filterScope to
global and topK to 5, calls match_rag_chunks with threshold 0.5, and maps
each returned row to a VectorSearchResult with the embedding stripped. -/
def VectorStore.search (db : RagDb) (dist : List ℚ → List ℚ → ℚ)
    (queryEmbedding : List ℚ) (options : SearchOptions) :
    List VectorSearchResult :=
  let filterScope := options.filterScope.getD "global"
  let topK := options.topK.getD 5
  (matchRagChunks db dist queryEmbedding (1/2) topK filterScope).map fun row =>
    ⟨⟨row.id, row.text, [], row.fileName, row.pageNumber⟩, row.similarity⟩

/-- Every row match_rag_chunks returns passes the threshold and scope
filters and originates from a chunk joined to its owning document. -/
theorem mem_matchRagChunks (db : RagDb) (dist : List ℚ → List ℚ → ℚ)
    (q : List ℚ) (threshold : ℚ) (count : Nat) (filterScope : String) :
    ∀ row ∈ matchRagChunks db dist q threshold count filterScope,
      threshold < row.similarity ∧
        ∃ ch ∈ db.ragChunks, ∃ d ∈ db.documents,
          d.id = ch.documentId ∧ row.id = ch.id ∧ row.fileName = d.fileName ∧
          row.similarity = 1 - dist ch.embedding q ∧
          (d.scope = "global" ∨ d.scope = filterScope) := by
  intro row hrow
  simp only [matchRagChunks] at hrow
  have hrow2 := (List.perm_insertionSort simGE _).subset (List.take_subset _ _ hrow)
  simp only [List.mem_map, List.mem_filter, List.mem_flatMap,
    Bool.and_eq_true, Bool.or_eq_true, decide_eq_true_eq, beq_iff_eq] at hrow2
  obtain ⟨⟨ch, d⟩, ⟨⟨ch', hch', d', hd'⟩, hthr, hscope⟩, rfl⟩ := hrow2
  obtain ⟨hd'', heq⟩ := hd'
  · exact ⟨hthr, ch, by simp_all, d, by simp_all, by simp_all, rfl, rfl, rfl,
      hscope⟩

/-- Claim C3: for every database state, distance function, query embedding
and search options, vector search returns at most topK results (default 5),
sorted by descending similarity, and every returned result has similarity
strictly greater than 0.5 and an owning document whose scope is global or
the requested filterScope (default global) — never another scope. -/
theorem c3_vector_search_contract (db : RagDb)
    (dist : List ℚ → List ℚ → ℚ) (q : List ℚ) (options : SearchOptions) :
    (VectorStore.search db dist q options).length ≤ options.topK.getD 5 ∧
      List.Sorted (fun a b : VectorSearchResult => b.similarity ≤ a.similarity)
        (VectorStore.search db dist q options) ∧
      ∀ r ∈ VectorStore.search db dist q options,
        1 / 2 < r.similarity ∧
          ∃ ch ∈ db.ragChunks, ∃ d ∈ db.documents,
            d.id = ch.documentId ∧ r.chunk.id = ch.id ∧
            r.chunk.sourceFileName = d.fileName ∧
            (d.scope = "global" ∨ d.scope = options.filterScope.getD "global") := by
  refine ⟨?_, ?_, ?_⟩
  · simp only [VectorStore.search, List.length_map, matchRagChunks,
      List.length_take]
    exact min_le_left _ _
  · have hsorted : List.Sorted simGE
        (matchRagChunks db dist q (1/2) (options.topK.getD 5)
          (options.filterScope.getD "global")) := by
      simp only [matchRagChunks]
      exact List.Pairwise.sublist (List.take_sublist _ _)
        (List.sorted_insertionSort simGE _)
    exact List.pairwise_map.mpr (hsorted.imp fun h => h)
  · intro r hr
    simp only [VectorStore.search, List.mem_map] at hr
    obtain ⟨row, hrow, rfl⟩ := hr
    obtain ⟨hthr, ch, hch, d, hd, h1, h2, h3, _, h5⟩ :=
      mem_matchRagChunks db dist q (1/2) (options.topK.getD 5)
        (options.filterScope.getD "global") row hrow
    exact ⟨hthr, ch, hch, d, hd, h1, h2, h3, h5⟩

/-- Claim C3 witness: a store with one global document and one chunk at
distance 0 from the query; a search scoped to another chat with topK 3
returns it, within bounds and above the threshold, via the contract
theorem. -/
theorem c3_vector_search_contract_witness :
    (VectorStore.search
        ⟨[⟨"d0", "f.pdf", 0, "global", 1⟩], [⟨"c0", "d0", ['t'], [1], some 1⟩]⟩
        (fun _ _ => 0) [1] ⟨some "chatA", none, some 3⟩).length ≤ 3 ∧
      1 / 2 < (⟨⟨"c0", ['t'], [], "f.pdf", some 1⟩, 1⟩ :
        VectorSearchResult).similarity :=
  have h := c3_vector_search_contract
    ⟨[⟨"d0", "f.pdf", 0, "global", 1⟩], [⟨"c0", "d0", ['t'], [1], some 1⟩]⟩
    (fun _ _ => 0) [1] ⟨some "chatA", none, some 3⟩
  ⟨h.1, (h.2.2 ⟨⟨"c0", ['t'], [], "f.pdf", some 1⟩, 1⟩
    (by norm_num [VectorStore.search, matchRagChunks, List.insertionSort,
      List.orderedInsert, List.filter])).1⟩

/-! ## Document ingestion (src/App.tsx handleFileUpload, per-file body) -/

/-- One persistence call of the ingestion flow: db.addDocument with the
RagDocument metadata, or vectorStore.addChunks for a parent document id. -/
inductive PersistEvent where
  | doc (docId : String) (fileName : String) (uploadTimestamp : Nat)
      (scope : String) (chunkCount : Nat)
  | chunks (docId : String) (count : Nat)
deriving DecidableEq

/-- Step 3 of the per-file flow: request an embedding for every chunk, in
order, assigning fresh ids; the first provider error aborts the file
(per-chunk failures are not individually caught). -/
def embedChunks (embed : List Char → Except String (List ℚ))
    (idGen : Nat → String) :
    List RawChunk → Nat → Except String (List RagChunk)
  | [], _ => .ok []
  | c :: rest, n =>
    match embed c.text with
    | .error e => .error e
    | .ok v =>
      match embedChunks embed idGen rest (n + 1) with
      | .error e => .error e
      | .ok tail =>
        .ok (⟨idGen n, c.text, v, c.sourceFileName, some c.pageNumber⟩ :: tail)

/-- The per-file body of handleFileUpload (App.tsx lines 737-791): chunk
the parsed pages, embed every chunk, then await db.addDocument(newDoc) and
only afterwards await vectorStore.addChunks.  The first component lists the
persistence calls in the order they are attempted; docInsertOk models
whether db.addDocument succeeds (its failure propagates before addChunks is
reached). -/
def ingestFile (pages : List PageText) (fileName scope docId : String)
    (embed : List Char → Except String (List ℚ)) (idGen : Nat → String)
    (now : Nat) (docInsertOk : Bool) : List PersistEvent × Option String :=
  let rawChunks := chunkText pages fileName
  match embedChunks embed idGen rawChunks 0 with
  | .error e => ([], some e)
  | .ok chunksWithEmbeddings =>
    if docInsertOk then
      ([.doc docId fileName now scope chunksWithEmbeddings.length,
        .chunks docId chunksWithEmbeddings.length], none)
    else
      ([.doc docId fileName now scope chunksWithEmbeddings.length],
        some "Failed to add document")

/-- Claim C8: in every ingestion run, whenever a chunk-persistence call
appears in the attempted-call sequence, a document-metadata persistence
call for the same document id (with the file name, timestamp, scope and
chunk count) appears strictly before it: a chunk record is never written
without a pre-existing parent document record. -/
theorem c8_document_persisted_before_chunks (pages : List PageText)
    (fileName scope docId : String)
    (embed : List Char → Except String (List ℚ)) (idGen : Nat → String)
    (now : Nat) (docInsertOk : Bool) (pre post : List PersistEvent)
    (d : String) (n : Nat)
    (hsplit : (ingestFile pages fileName scope docId embed idGen now
        docInsertOk).1 = pre ++ PersistEvent.chunks d n :: post) :
    PersistEvent.doc d fileName now scope n ∈ pre := by
  rw [ingestFile] at hsplit
  cases hemb : embedChunks embed idGen (chunkText pages fileName) 0 with
  | error e =>
    rw [hemb] at hsplit
    simp at hsplit
  | ok cs =>
    rw [hemb] at hsplit
    cases docInsertOk with
    | true =>
      simp only [if_pos] at hsplit
      match pre, hsplit with
      | [], h => simp at h
      | [a], h =>
        simp only [List.cons_append, List.nil_append, List.cons.injEq] at h
        obtain ⟨rfl, h2, -⟩ := h
        have : d = docId ∧ n = cs.length := by
          cases h2
          exact ⟨rfl, rfl⟩
        obtain ⟨rfl, rfl⟩ := this
        exact List.mem_singleton.mpr rfl
      | a :: b :: pre', h =>
        simp only [List.cons_append, List.cons.injEq] at h
        obtain ⟨-, -, h⟩ := h
        exact absurd h (by simp)
    | false =>
      simp only [if_neg, Bool.false_eq_true, not_false_iff, ite_false] at hsplit
      match pre, hsplit with
      | [], h => simp at h
      | a :: pre', h =>
        simp only [List.cons_append, List.cons.injEq] at h
        obtain ⟨-, h⟩ := h
        exact absurd h (by simp)

/-- Claim C8 witness: a concrete ingestion of one 60-character page; the
document record for D precedes the chunk write, via the theorem of the claim. -/
theorem c8_document_persisted_before_chunks_witness :
    PersistEvent.doc "D" "f.pdf" 5 "global" 1 ∈
      [PersistEvent.doc "D" "f.pdf" 5 "global" 1] :=
  c8_document_persisted_before_chunks [⟨List.replicate 60 'a', 1⟩] "f.pdf"
    "global" "D" (fun _ => .ok [0]) (fun _ => "cid") 5 true
    [PersistEvent.doc "D" "f.pdf" 5 "global" 1] [] "D" 1 (by decide)

/-! ## Voice input engine (src/unnamed/part_000, useSpeechToText) -/

/-- The status values of the hook. -/
inductive SpeechStatus where
  | idle
  | listening
  | recording
  | processing
  | error
deriving DecidableEq

/-- The mutable state the hook holds across events. -/
structure SttState where
  status : SpeechStatus
  isFallbackMode : Bool
deriving DecidableEq

/-- Externally visible actions the hook performs on a transition. -/
inductive SttAction where
  | startNative
  | stopNative
  | requestMic
  | startRecorder
  | emitTranscript (t : List Char)
  | emitError (e : String)
deriving DecidableEq

/-- Events driving the hook: a startListening call (with whether the native
recognizer API exists and whether its construction throws), recognizer
callbacks, microphone permission outcomes, the recorder finishing with a
transcription outcome, and stopListening. -/
inductive SttEvent where
  | startListening (hasNativeApi : Bool) (initFails : Bool)
  | nativeError (e : String)
  | nativeEnd
  | nativeResult (t : List Char)
  | micGranted
  | micDenied
  | recorderStopped (transcription : Except Unit (List Char))
  | stopListening (recorderActive : Bool)
deriving DecidableEq

/-- startFallbackRecording (part_000 lines 86-123): set status recording
and request the microphone. -/
def startFallbackRecording (s : SttState) : SttState × List SttAction :=
  ({ s with status := SpeechStatus.recording }, [SttAction.requestMic])

/-- The transition function of useSpeechToText (part_000 lines 20-134).
startListening first resets status to listening, then takes the native
path only when isFallbackMode is false and the API exists (a constructor
throw latches fallback mode without starting capture); a terminal
recognizer error among network / not-allowed / service-not-allowed latches
isFallbackMode and immediately starts fallback capture; the recorder
onstop/transcription pair is collapsed into one event whose outcome leads
to idle (transcript delivered when nonempty) or error. -/
def sttStep (s : SttState) : SttEvent → SttState × List SttAction
  | .startListening hasNativeApi initFails =>
    let s1 := { s with status := SpeechStatus.listening }
    if !s1.isFallbackMode && hasNativeApi then
      if initFails then ({ s1 with isFallbackMode := true }, [])
      else (s1, [SttAction.startNative])
    else
      startFallbackRecording s1
  | .nativeError e =>
    if e = "network" ∨ e = "not-allowed" ∨ e = "service-not-allowed" then
      let r := startFallbackRecording { s with isFallbackMode := true }
      (r.1, SttAction.stopNative :: r.2)
    else
      ({ s with status := SpeechStatus.error }, [SttAction.emitError e])
  | .nativeEnd =>
    if s.status = SpeechStatus.listening then
      ({ s with status := SpeechStatus.idle }, [])
    else (s, [])
  | .nativeResult t => (s, [SttAction.emitTranscript t])
  | .micGranted => (s, [SttAction.startRecorder])
  | .micDenied =>
    ({ s with status := SpeechStatus.error },
      [SttAction.emitError "Microphone access denied"])
  | .recorderStopped transcription =>
    match transcription with
    | .ok t =>
      ({ s with status := SpeechStatus.idle },
        if t = [] then [] else [SttAction.emitTranscript t])
    | .error _ =>
      ({ s with status := SpeechStatus.error },
        [SttAction.emitError "Transcription failed"])
  | .stopListening recorderActive =>
    if recorderActive then (s, [])
    else ({ s with status := SpeechStatus.idle }, [])

/-- Fold of the transition function over an event sequence. -/
def sttRun (s : SttState) (events : List SttEvent) : SttState :=
  events.foldl (fun st e => (sttStep st e).1) s

/-- No single transition ever clears the fallback flag. -/
theorem sttStep_fallback_mono (s : SttState) (e : SttEvent)
    (h : s.isFallbackMode = true) : (sttStep s e).1.isFallbackMode = true := by
  cases e <;>
    simp only [sttStep, startFallbackRecording, h, Bool.not_true,
      Bool.false_and, if_false, ite_false] <;>
    (try split) <;> simp_all

/-- Claim C9: once isFallbackMode is true it never reverts for the
remainder of the session — it survives every subsequent event sequence —
and every subsequent startListening call skips the native recognizer path
entirely and goes directly to fallback recording (only the microphone is
requested; the native recognizer is never started). -/
theorem c9_fallback_mode_sticky (s : SttState) (events : List SttEvent)
    (h : s.isFallbackMode = true) :
    (sttRun s events).isFallbackMode = true ∧
      ∀ hasNativeApi initFails : Bool,
        sttStep s (.startListening hasNativeApi initFails) =
          (⟨SpeechStatus.recording, true⟩, [SttAction.requestMic]) := by
  constructor
  · induction events generalizing s with
    | nil => exact h
    | cons e rest ih => exact ih _ (sttStep_fallback_mono s e h)
  · intro hasNativeApi initFails
    obtain ⟨st, fb⟩ := s
    cases h
    simp [sttStep, startFallbackRecording]

/-- Claim C9 witness: from a fallback-latched state, two further events
leave the latch set, and a startListening call with the native API present
goes directly to fallback recording, via the theorem of the claim. -/
theorem c9_fallback_mode_sticky_witness :
    (sttRun ⟨SpeechStatus.idle, true⟩
        [SttEvent.nativeEnd, SttEvent.micGranted]).isFallbackMode = true ∧
      sttStep ⟨SpeechStatus.idle, true⟩ (.startListening true false) =
        (⟨SpeechStatus.recording, true⟩, [SttAction.requestMic]) :=
  have h := c9_fallback_mode_sticky ⟨SpeechStatus.idle, true⟩
    [SttEvent.nativeEnd, SttEvent.micGranted] rfl
  ⟨h.1, h.2 true false⟩

end RagChat
